import Mathlib

/-!
Verification development for the go-evm-kit repository.

The development shallowly embeds the parts of the code that the checked
properties are about:

* `convert.go` (`ToDecimal`, `ToWei`), together with a model of the
  shopspring/decimal library operations they call (`Mul`, `Pow`, `Div` with
  its default `DivisionPrecision = 16`, `String`) and of `math/big`
  `Int.SetString`;
* the contract-selector helper `GetContractMethodId` together with a model
  of the Keccak-256 hash (legacy Keccak padding, as used by
  `crypto.Keccak256`) and lowercase hex encoding (`hexutil.Encode`);
* `wallet.go` (`Wallet.NewTx`, `Wallet.SignTx`, `Wallet.SendSignedTx`,
  `Wallet.SendTx`) and `provider.go` (`Provider.GetChainID`,
  `Provider.GetSuggestGasPrice`, `Provider.EstimateGas`), with the
  JSON-RPC node abstracted as a stub record of fallible query functions and
  an explicit trace of the queries issued to it;
* the receipt-polling loop `Kit.WaitForReceiptWithInterval` (kit.go), as a
  small-step outcome relation over discrete nanosecond time.
-/

/-! ## Part 1: the numeric converter (convert.go) and its decimal library -/

/-- Model of a shopspring/decimal `Decimal`: an arbitrary-precision integer
coefficient `value` and a base-ten exponent `exp`; the number denoted is
`value * 10 ^ exp`. -/
structure Dec where
  value : Int
  exp : Int
deriving DecidableEq, Repr

/-- shopspring `Decimal.Mul`: exact product (coefficients multiply,
exponents add). -/
def Dec.mul (d d2 : Dec) : Dec := ⟨d.value * d2.value, d.exp + d2.exp⟩

/-- shopspring `Decimal.Pow` evaluated at a non-negative integer exponent
`n`.  The library recursion `Pow(d2) = Pow(d2.Div(two))² · d^(IntPart d2 % 2)`
halves the exponent exactly (division by two is exact in decimal arithmetic)
and bottoms out when the integer part reaches zero, so at integer exponents
it is binary exponentiation; the fuel argument makes the recursion
structural. -/
def decPowAux : Nat → Dec → Nat → Dec
  | 0, _, _ => ⟨1, 0⟩
  | fuel+1, d, n =>
    if n = 0 then ⟨1, 0⟩
    else
      let temp := decPowAux fuel d (n / 2)
      if n % 2 = 0 then temp.mul temp
      else (temp.mul temp).mul d

/-- `Decimal.Pow` at integer exponent `n ≥ 0` (fuel instantiated). -/
def decPowNat (d : Dec) (n : Nat) : Dec := decPowAux n d n

/-- shopspring `Decimal.Div` = `DivRound(d2, DivisionPrecision)` with the
library default `DivisionPrecision = 16`: `QuoRem` computes the truncated
quotient `q` at exponent `-16` with remainder `r`, and `DivRound` rounds
half away from zero by comparing `2·|r|` with `|bb|`. -/
def Dec.div (d d2 : Dec) : Dec :=
  let scale : Int := -16
  let e : Int := d.exp - d2.exp - scale
  let (aa, bb) : Int × Int :=
    if e < 0 then (d.value, d2.value * (10 : Int) ^ (-e).toNat)
    else (d.value * (10 : Int) ^ e.toNat, d2.value)
  let q := Int.tdiv aa bb
  let r := aa - bb * q
  if 2 * r.natAbs < bb.natAbs then ⟨q, scale⟩
  else if d.value.sign * d2.value.sign < 0 then ⟨q - 1, scale⟩
  else ⟨q + 1, scale⟩

/-- The character for decimal digit `d` (`'0'` for 0, …, `'9'` for 9). -/
def digitChar (d : Nat) : Char := Char.ofNat (48 + d)

/-- Decimal digit characters of `n`, most significant first, as produced by
`math/big` `Int.String` for a non-negative integer; structural on fuel
(`fuel ≥ n` suffices since `n / 10` drops below the fuel each step). -/
def natDigitsAux : Nat → Nat → List Char
  | 0, _ => []
  | fuel+1, n => if n = 0 then [] else natDigitsAux fuel (n / 10) ++ [digitChar (n % 10)]

/-- `math/big` `Int.String` for the absolute value `n` (renders `0` as
`"0"`). -/
def natStr (n : Nat) : List Char := if n = 0 then [digitChar 0] else natDigitsAux n n

/-- Drop trailing `'0'` characters (the fractional-part trimming loop of
shopspring `Decimal.string(trimTrailingZeros = true)`). -/
def trimZeros (l : List Char) : List Char :=
  ((l.reverse).dropWhile (fun c => c = digitChar 0)).reverse

/-- shopspring `Decimal.String()`: for `exp ≥ 0`, the integer
`value·10^exp`; otherwise the digit string of `|value|` split `exp` places
from the right into integer and fractional parts (zero-padded on the left
when too short), the fractional part trimmed of trailing zeros and dropped
entirely when empty; a leading `'-'` for negative values. -/
def Dec.str (d : Dec) : List Char :=
  if 0 ≤ d.exp then
    let v := d.value * (10 : Int) ^ d.exp.toNat
    (if v < 0 then ['-'] else []) ++ natStr v.natAbs
  else
    let s := natStr d.value.natAbs
    let k := (-d.exp).toNat
    let ip := if s.length > k then s.take (s.length - k) else [digitChar 0]
    let fp0 := if s.length > k then s.drop (s.length - k)
               else List.replicate (k - s.length) (digitChar 0) ++ s
    let fp := trimZeros fp0
    let number := ip ++ (if fp.length > 0 then '.' :: fp else [])
    (if d.value < 0 then ['-'] else []) ++ number

/-- The digit-scanning loop of `math/big` `Int.scan` (base 10): consume
decimal digits, accumulating the value, and stop at the first non-digit
character. -/
def scanDigits : List Char → Nat → Nat
  | [], acc => acc
  | c :: rest, acc => if c.isDigit then scanDigits rest (acc * 10 + (c.toNat - 48)) else acc

/-- `math/big` `Int.SetString(s, 10)` as called by `ToWei` with its result
ignored: an optional leading sign followed by the maximal digit prefix is
scanned into the receiver; when the whole string is not consumed (for
example at a decimal point) `SetString` reports failure but the receiver
keeps the scanned prefix, which is the value `ToWei` returns. -/
def bigIntScan (cs : List Char) : Int :=
  match cs with
  | c :: rest => if c = '-' then -(scanDigits rest 0 : Int) else (scanDigits cs 0 : Int)
  | [] => 0

/-- `ToDecimal` (convert.go lines 25–39): the input (a base-10 string or a
`*big.Int`, here already an integer) is re-read through
`decimal.NewFromString(value.String())`, giving the decimal `⟨value, 0⟩`,
and divided by `10^decimals`; `decimal.NewFromFloat(10).Pow(...)` at the
integer exponent `decimals ≥ 0` is exactly `⟨10^decimals, 0⟩`. -/
def ToDecimal (value : Int) (decimals : Nat) : Dec :=
  let mul := decPowNat ⟨10, 0⟩ decimals
  let num : Dec := ⟨value, 0⟩
  num.div mul

/-- `ToWei` (convert.go lines 54–78): the input amount (after the
`interface{}` dispatch that turns strings, floats and integers into a
`decimal.Decimal`) is multiplied by `10^decimals` and the decimal's string
rendering is scanned back through `big.Int.SetString(..., 10)` with the
error ignored. -/
def ToWei (amount : Dec) (decimals : Nat) : Int :=
  let mul := decPowNat ⟨10, 0⟩ decimals
  let result := amount.mul mul
  bigIntScan result.str

/-- The rational number denoted by a decimal (`value · 10 ^ exp`). -/
def Dec.toRat (d : Dec) : ℚ :=
  if 0 ≤ d.exp then ((d.value * (10 : Int) ^ d.exp.toNat : Int) : ℚ)
  else (d.value : ℚ) / ((10 : ℕ) ^ (-d.exp).toNat : ℕ)

/-- Truncation of a rational towards zero. -/
def ratTrunc (x : ℚ) : Int := if 0 ≤ x then ⌊x⌋ else -⌊-x⌋

/-- Truncation towards zero of `v · 10 ^ e` (the reference value that
`ToWei`'s render-then-scan pipeline is proved to compute). -/
def decTrunc (v e : Int) : Int :=
  if 0 ≤ e then v * 10 ^ e.toNat
  else v.sign * ((v.natAbs / 10 ^ (-e).toNat : Nat) : Int)

/-! ## Part 2: Keccak-256 and the method selector (GetContractMethodId) -/

/-- Mask of a 64-bit lane. -/
def u64mask : Nat := 2 ^ 64 - 1

/-- Left-rotation of a 64-bit lane. -/
def rotl64 (x n : Nat) : Nat := ((x <<< n) ||| (x >>> (64 - n))) &&& u64mask

/-- Keccak state: 25 lanes, lane `(x, y)` at index `x + 5·y`. -/
abbrev KState := List Nat

/-- Lane `(x, y)` of the state. -/
def kGet (A : KState) (x y : Nat) : Nat := A.getD (x + 5 * y) 0

/-- Keccak θ step. -/
def keccakTheta (A : KState) : KState :=
  let C := (List.range 5).map fun x =>
    kGet A x 0 ^^^ kGet A x 1 ^^^ kGet A x 2 ^^^ kGet A x 3 ^^^ kGet A x 4
  let D := (List.range 5).map fun x =>
    C.getD ((x + 4) % 5) 0 ^^^ rotl64 (C.getD ((x + 1) % 5) 0) 1
  (List.range 25).map fun i => A.getD i 0 ^^^ D.getD (i % 5) 0

/-- Keccak rotation offsets: `rotOffsets[x][y]` is the ρ offset of lane
`(x, y)`. -/
def rotOffsets : List (List Nat) :=
  [[0, 36, 3, 41, 18],
   [1, 44, 10, 45, 2],
   [62, 6, 43, 15, 61],
   [28, 55, 25, 21, 56],
   [27, 20, 39, 8, 14]]

/-- Keccak ρ and π steps: the target lane `(x', y')` receives the source
lane `(x, y) = ((x' + 3·y') mod 5, x')` rotated by its offset. -/
def keccakRhoPi (A : KState) : KState :=
  (List.range 25).map fun j =>
    let xp := j % 5
    let yp := j / 5
    let x := (xp + 3 * yp) % 5
    let y := xp
    rotl64 (kGet A x y) ((rotOffsets.getD x []).getD y 0)

/-- Keccak χ step. -/
def keccakChi (A : KState) : KState :=
  (List.range 25).map fun j =>
    let x := j % 5
    let y := j / 5
    kGet A x y ^^^ ((kGet A ((x + 1) % 5) y ^^^ u64mask) &&& kGet A ((x + 2) % 5) y)

/-- The 24 Keccak round constants. -/
def keccakRC : List Nat :=
  [0x1, 0x8082, 0x800000000000808a, 0x8000000080008000,
   0x808b, 0x80000001, 0x8000000080008081, 0x8000000000008009,
   0x8a, 0x88, 0x80008009, 0x8000000a,
   0x8000808b, 0x800000000000008b, 0x8000000000008089, 0x8000000000008003,
   0x8000000000008002, 0x8000000000000080, 0x800a, 0x800000008000000a,
   0x8000000080008081, 0x8000000000008080, 0x80000001, 0x8000000080008008]

/-- One Keccak round: θ, ρ, π, χ, then ι (xor the round constant into lane
`(0,0)`). -/
def keccakRound (A : KState) (rc : Nat) : KState :=
  match keccakChi (keccakRhoPi (keccakTheta A)) with
  | a0 :: rest => (a0 ^^^ rc) :: rest
  | [] => []

/-- The Keccak-f[1600] permutation (24 rounds). -/
def keccakF (A : KState) : KState := keccakRC.foldl keccakRound A

/-- A little-endian 8-byte group as a 64-bit lane. -/
def bytesToLane (bs : List Nat) : Nat := bs.foldr (fun b acc => acc * 256 + b) 0

/-- Absorb the padded message (rate 136 bytes = 17 lanes per block);
structural on fuel (`fuel ≥ length` suffices). -/
def keccakAbsorb : Nat → KState → List Nat → KState
  | _, A, [] => A
  | 0, A, _ => A
  | fuel+1, A, bs =>
    let block := bs.take 136
    let lanes := (List.range 17).map fun i => bytesToLane ((block.drop (8 * i)).take 8)
    let A2 := (List.range 25).map fun j => A.getD j 0 ^^^ lanes.getD j 0
    keccakAbsorb fuel (keccakF A2) (bs.drop 136)

/-- Legacy Keccak multi-rate padding (pad byte `0x01`, final byte or-ed
with `0x80`), as used by `crypto.Keccak256` via `NewLegacyKeccak256`. -/
def keccakPad (msg : List Nat) : List Nat :=
  let padLen := 136 - msg.length % 136
  let p := msg ++ 0x01 :: List.replicate (padLen - 1) 0
  p.dropLast ++ [p.getLastD 0 ||| 0x80]

/-- A 64-bit lane as 8 little-endian bytes. -/
def laneToBytes (v : Nat) : List Nat := (List.range 8).map fun i => (v >>> (8 * i)) % 256

/-- Model of `crypto.Keccak256` (go-ethereum; legacy Keccak-256, rate 136,
32-byte digest): pad, absorb, and squeeze the first 32 bytes of the state. -/
def Keccak256 (msg : List Nat) : List Nat :=
  let p := keccakPad msg
  let A := keccakAbsorb p.length (List.replicate 25 0) p
  (((List.range 4).map fun i => laneToBytes (A.getD i 0)).flatten).take 32

/-- Lowercase hexadecimal digit character. -/
def hexDigit (n : Nat) : Char := if n < 10 then Char.ofNat (48 + n) else Char.ofNat (87 + n)

/-- `hexutil.Encode`: `"0x"` followed by two lowercase hex characters per
byte. -/
def hexutilEncode (bs : List Nat) : String :=
  ⟨'0' :: 'x' :: (bs.map fun b => [hexDigit (b / 16), hexDigit (b % 16)]).flatten⟩

/-- The bytes of a Go string (`[]byte(method)`); the method signatures in
scope are ASCII, one byte per character. -/
def strBytes (s : String) : List Nat := s.data.map Char.toNat

/-- `GetContractMethodId` (contract helpers): the lowercase hex encoding,
`0x`-prefixed, of the first 4 bytes of the Keccak-256 hash of the method
signature string. -/
def GetContractMethodId (method : String) : String :=
  hexutilEncode ((Keccak256 (strBytes method)).take 4)

/-! ## Part 3: provider and wallet (provider.go, wallet.go)

The JSON-RPC node behind `ethclient.Client` is the external Chain Query
Service; it is abstracted as a record of fallible query functions
(`NodeStub`).  A `PState` carries the provider's cached chain id
(`Provider.chainId`) and the ordered trace of queries issued to the node,
so that claims about which network round-trips happen (and in which order)
are statable. -/

/-- `common.Address` (opaque 20-byte account identifier). -/
structure Address where
  addr : Nat
deriving DecidableEq, Repr

/-- A byte payload (`[]byte`). -/
abbrev Bytes := List Nat

/-- Go `error` values (opaque; only identity matters for propagation). -/
abbrev Err := String

/-- `types.Receipt` (the fields the spec's data model names). -/
structure Receipt where
  status : Bool
  gasUsed : Nat
  blockNumber : Nat
deriving DecidableEq, Repr

/-- The `ethereum.CallMsg` built by `Provider.EstimateGas`: the fields it
sets are `From`, `To`, `GasPrice`, `Value`, `Data` and `Gas: 0`;
`GasFeeCap`, `GasTipCap` and `AccessList` are always nil and omitted.
Note that `ethereum.CallMsg` has no nonce field. -/
structure CallMsg where
  msgFrom : Address
  msgTo : Address
  msgGas : Nat
  msgGasPrice : Option Int
  msgValue : Option Int
  msgData : Bytes
deriving DecidableEq, Repr

/-- An unsigned legacy transaction as built by `NewTx` (transaction.go):
`types.LegacyTx` with the listed fields.  `*big.Int` fields are `Option`
(`none` = nil pointer). -/
structure Tx where
  txTo : Address
  txNonce : Nat
  txGas : Nat
  txGasPrice : Option Int
  txValue : Option Int
  txData : Bytes
deriving DecidableEq, Repr

/-- A signed transaction: the transaction bound (EIP-155 London signing)
to a chain id; the signature itself is opaque key material and is
abstracted away, the binding is what the claims use. -/
structure SignedTx where
  tx : Tx
  chainId : Int
deriving DecidableEq, Repr

/-- A transaction hash, a pure function of the signed transaction. -/
structure Hash where
  ofTx : SignedTx
deriving DecidableEq, Repr

/-- One query issued to the Chain Query Service (node), with the payload
that crosses the RPC boundary. -/
inductive Call where
  | pendingNonceAt (a : Address)
  | suggestGasPrice
  | estimateGas (msg : CallMsg)
  | chainID
  | sendTransaction (stx : SignedTx)
deriving DecidableEq, Repr

/-- The node stub: answers (or errors) for each query kind. -/
structure NodeStub where
  pendingNonceAt : Address → Except Err Nat
  suggestGasPrice : Except Err Int
  estimateGas : CallMsg → Except Err Nat
  chainID : Except Err Int
  sendTransaction : SignedTx → Except Err Unit

/-- Provider-side state: the lazily cached chain id (`Provider.chainId`,
nil until resolved) and the trace of queries issued to the node so far,
oldest first. -/
structure PState where
  chainId : Option Int
  trace : List Call
deriving DecidableEq, Repr

/-- Computations over a provider connection: state passing plus early
return on a Go error. -/
def EthM (α : Type) : Type := PState → Except Err α × PState

/-- Monadic return (`return x, nil`). -/
def EthM.pure {α : Type} (a : α) : EthM α := fun s => (.ok a, s)

/-- Sequencing with Go's `if err != nil { return ..., err }` early-return
pattern. -/
def EthM.bind {α β : Type} (m : EthM α) (f : α → EthM β) : EthM β := fun s =>
  match m s with
  | (.ok a, s1) => f a s1
  | (.error e, s1) => (.error e, s1)

instance : Monad EthM where
  pure := EthM.pure
  bind := EthM.bind

/-- Read the provider state. -/
def EthM.read : EthM PState := fun s => (.ok s, s)

/-- Update the provider state. -/
def EthM.update (f : PState → PState) : EthM Unit := fun s => (.ok (), f s)

/-- Issue one query to the node: record it in the trace and return the
stub's answer (or propagate its error). -/
def EthM.query {α : Type} (c : Call) (r : Except Err α) : EthM α := fun s =>
  (r, { s with trace := s.trace ++ [c] })

/-- `NewProvider` (provider.go lines 163–174): fresh connection, chain id
not yet resolved. -/
def NewProvider : PState := ⟨none, []⟩

/-- `NewProviderWithChainId` (provider.go lines 186–195): the chain id
cache is preset at construction. -/
def NewProviderWithChainId (chainId : Int) : PState := ⟨some chainId, []⟩

/-- `Provider.GetChainID` (provider.go lines 242–253): if the cache is
nil, query `eth_chainId` once and store the answer; return the cached
value. -/
def Provider.GetChainID (p : NodeStub) : EthM Int := do
  let st ← EthM.read
  match st.chainId with
  | some cid => pure cid
  | none =>
    let cid ← EthM.query .chainID p.chainID
    EthM.update fun s => { s with chainId := some cid }
    pure cid

/-- `Provider.GetSuggestGasPrice` (provider.go lines 301–303): direct
forward of `eth_gasPrice`. -/
def Provider.GetSuggestGasPrice (p : NodeStub) : EthM Int :=
  EthM.query .suggestGasPrice p.suggestGasPrice

/-- `Provider.EstimateGas` (provider.go lines 384–396): forwards an
`ethereum.CallMsg` with `From`, `To`, `GasPrice`, `Value`, `Data`,
`Gas: 0`.  The `nonce` parameter appears in the Go signature but is not
placed in the message (`ethereum.CallMsg` has no nonce field), so it never
reaches the node. -/
def Provider.EstimateGas (p : NodeStub) (fromA toA : Address) (nonce : Nat)
    (gasPrice value : Option Int) (data : Bytes) : EthM Nat :=
  EthM.query (.estimateGas ⟨fromA, toA, 0, gasPrice, value, data⟩)
    (p.estimateGas ⟨fromA, toA, 0, gasPrice, value, data⟩)

/-- `Wallet`: the account address (derived from the private key by
external crypto; the key itself is opaque and unused by these claims). -/
structure Wallet where
  address : Address
deriving DecidableEq, Repr

/-- `Wallet.GetNonce` (wallet.go lines 264–266): pending nonce for the
wallet's address. -/
def Wallet.GetNonce (w : Wallet) (p : NodeStub) : EthM Nat :=
  EthM.query (.pendingNonceAt w.address) (p.pendingNonceAt w.address)

/-- The `gasPrice == nil || gasPrice.Sign() == 0` test of `Wallet.NewTx`. -/
def gasPriceUnset : Option Int → Bool
  | none => true
  | some x => x.sign == 0

/-- `NewTx` (transaction.go lines 32–41): pure constructor of the legacy
transaction; always succeeds.  The Go parameter `to` is `toA` here (`to` is
reserved). -/
def NewTx (toA : Address) (nonce gasLimit : Nat) (gasPrice value : Option Int)
    (data : Bytes) : Except Err Tx :=
  .ok ⟨toA, nonce, gasLimit, gasPrice, value, data⟩

/-- Alias for the top-level `NewTx`, for use inside `Wallet.NewTx` where
the bare name would resolve to the method itself. -/
def NewTxAlias := @NewTx

/-- `Wallet.NewTx` (wallet.go lines 294–321): resolve the nonce if the
argument is 0, then the gas price if nil or zero, then the gas limit if 0
(passing the wallet address, recipient, resolved nonce, resolved gas
price, value and data to `Provider.EstimateGas`), and build the
transaction. -/
def Wallet.NewTx (w : Wallet) (p : NodeStub) (toA : Address)
    (nonce gasLimit : Nat) (gasPrice value : Option Int) (data : Bytes) : EthM Tx := do
  let nonce ← if nonce = 0 then w.GetNonce p else pure nonce
  let gasPrice ←
    if gasPriceUnset gasPrice then do
      let gp ← Provider.GetSuggestGasPrice p
      pure (some gp)
    else pure gasPrice
  let gasLimit ←
    if gasLimit = 0 then Provider.EstimateGas p w.address toA nonce gasPrice value data
    else pure gasLimit
  match NewTxAlias toA nonce gasLimit gasPrice value data with
  | .ok tx => pure tx
  | .error e => fun s => (.error e, s)

/-- `Wallet.SignTx` (wallet.go lines 451–466): resolve the chain id
(cached or queried) and sign with the London signer; the crypto cannot
fail for valid key material, so the result is the transaction bound to the
chain id. -/
def Wallet.SignTx (w : Wallet) (p : NodeStub) (tx : Tx) : EthM SignedTx := do
  let chainId ← Provider.GetChainID p
  pure ⟨tx, chainId⟩

/-- `Wallet.SendSignedTx` (wallet.go lines 477–483): broadcast the signed
transaction and return its hash. -/
def Wallet.SendSignedTx (w : Wallet) (p : NodeStub) (stx : SignedTx) : EthM Hash := do
  EthM.query (.sendTransaction stx) (p.sendTransaction stx)
  pure ⟨stx⟩

/-- `Wallet.SendTx` (wallet.go lines 337–350): build, sign, broadcast. -/
def Wallet.SendTx (w : Wallet) (p : NodeStub) (toA : Address)
    (nonce gasLimit : Nat) (gasPrice value : Option Int) (data : Bytes) : EthM Hash := do
  let tx ← w.NewTx p toA nonce gasLimit gasPrice value data
  let stx ← w.SignTx p tx
  w.SendSignedTx p stx

/-! ## Part 4: the confirmation poller (Kit.WaitForReceiptWithInterval) -/

/-- `time.Second` in nanoseconds (`time.Duration` units). -/
def secondNs : Nat := 1000000000

/-- `DefaultWaitInterval = time.Second`. -/
def DefaultWaitInterval : Nat := secondNs

/-- Terminal outcome of one wait. -/
inductive PollResult where
  | confirmed (r : Receipt)
  | timedOut
deriving DecidableEq, Repr

/-- The select loop of `Kit.WaitForReceiptWithInterval` (k-th iteration,
ticker fires at `k·interval`, the timeout context fires at `deadline`):

* `timeout`: if the deadline is at or before the next tick, `ctx.Done()`
  can be selected; the wait returns the context error (modelled
  `.timedOut`).
* `confirm`: if the next tick is at or before the deadline, the ticker can
  fire; the receipt query succeeds with a non-nil receipt and the wait
  returns it.
* `tickMiss`: the ticker fires but the query errors or finds no receipt;
  loop to the next tick.

At `deadline = k·interval` both channels are ready and Go's `select`
chooses nondeterministically, hence the overlapping guards.  `q k` is the
node's answer to `GetTransactionReceipt` at the k-th tick. -/
inductive PollEnds (q : Nat → Except Err (Option Receipt)) (deadline interval : Nat) :
    Nat → PollResult → Prop
  | timeout {k : Nat} : deadline ≤ k * interval →
      PollEnds q deadline interval k .timedOut
  | confirm {k : Nat} {r : Receipt} : k * interval ≤ deadline →
      q k = .ok (some r) → PollEnds q deadline interval k (.confirmed r)
  | tickMiss {k : Nat} {res : PollResult} : k * interval ≤ deadline →
      (∀ r : Receipt, q k ≠ .ok (some r)) →
      PollEnds q deadline interval (k + 1) res → PollEnds q deadline interval k res

/-- `Kit.WaitForReceiptWithInterval` (kit.go lines 249–271): an interval
below one second is silently clamped to `DefaultWaitInterval`, then the
select loop runs from the first tick. -/
def Kit.WaitForReceiptWithInterval (q : Nat → Except Err (Option Receipt))
    (timeout interval : Nat) (res : PollResult) : Prop :=
  PollEnds q timeout (if interval < secondNs then DefaultWaitInterval else interval) 1 res

/-! ## Lemmas: digit rendering and scanning (supporting the converter claims) -/

theorem digitChar_toNat {d : Nat} (h : d < 10) : (digitChar d).toNat = 48 + d := by
  interval_cases d <;> decide

theorem digitChar_isDigit {d : Nat} (h : d < 10) : (digitChar d).isDigit = true := by
  interval_cases d <;> decide

theorem digitChar_ne_minus {d : Nat} (h : d < 10) : digitChar d ≠ '-' := by
  interval_cases d <;> decide

theorem natDigitsAux_zero (f : Nat) : natDigitsAux f 0 = [] := by
  cases f <;> simp [natDigitsAux]

/-- Fuel irrelevance for the digit renderer. -/
theorem natDigitsAux_fuel : ∀ f g n : Nat, n ≤ f → n ≤ g → natDigitsAux f n = natDigitsAux g n := by
  intro f
  induction f with
  | zero => intro g n hf _; interval_cases n; exact (natDigitsAux_zero g).symm
  | succ f ih =>
    intro g n hf hg
    by_cases h0 : n = 0
    · subst h0; rw [natDigitsAux_zero, natDigitsAux_zero]
    · obtain ⟨g2, rfl⟩ : ∃ g2, g = g2 + 1 := ⟨g - 1, by omega⟩
      have hd : n / 10 < n := Nat.div_lt_self (by omega) (by omega)
      simp only [natDigitsAux, if_neg h0]
      rw [ih g2 (n / 10) (by omega) (by omega)]

/-- Scanning the rendered digits of `n` followed by `rest` accumulates `n`. -/
theorem scanDigits_digits : ∀ f n acc rest, n ≤ f →
    scanDigits (natDigitsAux f n ++ rest) acc
      = scanDigits rest (acc * 10 ^ (natDigitsAux f n).length + n) := by
  intro f
  induction f with
  | zero => intro n acc rest hf; interval_cases n; simp [natDigitsAux]
  | succ f ih =>
    intro n acc rest hf
    by_cases h0 : n = 0
    · subst h0; simp [natDigitsAux]
    · have hd : n / 10 < n := Nat.div_lt_self (by omega) (by omega)
      simp only [natDigitsAux, if_neg h0, List.append_assoc, List.singleton_append]
      rw [ih (n / 10) acc (digitChar (n % 10) :: rest) (by omega)]
      have hm : n % 10 < 10 := Nat.mod_lt _ (by omega)
      simp only [scanDigits, digitChar_isDigit hm, if_pos, digitChar_toNat hm,
        List.length_append, List.length_cons, List.length_nil]
      congr 1
      have : 48 + n % 10 - 48 = n % 10 := by omega
      rw [this]
      have hnm : n / 10 * 10 + n % 10 = n := by omega
      ring_nf
      omega

/-- The rendered value is bounded by ten to the digit count. -/
theorem natDigitsAux_lt : ∀ f n, n ≤ f → n < 10 ^ (natDigitsAux f n).length := by
  intro f
  induction f with
  | zero => intro n hf; interval_cases n; simp [natDigitsAux]
  | succ f ih =>
    intro n hf
    by_cases h0 : n = 0
    · subst h0; simp [natDigitsAux]
    · have hd : n / 10 < n := Nat.div_lt_self (by omega) (by omega)
      have := ih (n / 10) (by omega)
      simp only [natDigitsAux, if_neg h0, List.length_append, List.length_cons,
        List.length_nil]
      have hmod : n % 10 < 10 := Nat.mod_lt _ (by omega)
      have hdiv : n / 10 * 10 + n % 10 = n := by omega
      have hpow : 10 ^ ((natDigitsAux f (n / 10)).length + (0 + 1))
          = 10 ^ (natDigitsAux f (n / 10)).length * 10 := by ring
      rw [hpow]
      set P := 10 ^ (natDigitsAux f (n / 10)).length with hP
      omega

/-- Taking all but the last `k` digits renders `n / 10 ^ k`. -/
theorem natDigitsAux_take : ∀ k n,
    (natDigitsAux n n).take ((natDigitsAux n n).length - k)
      = natDigitsAux (n / 10 ^ k) (n / 10 ^ k) := by
  intro k
  induction k with
  | zero => intro n; simp
  | succ k ih =>
    intro n
    by_cases h0 : n = 0
    · subst h0; simp [natDigitsAux_zero]
    · obtain ⟨m, rfl⟩ : ∃ m, n = m + 1 := ⟨n - 1, by omega⟩
      have hd : (m + 1) / 10 ≤ m := by omega
      conv_lhs => rw [show natDigitsAux (m + 1) (m + 1)
        = natDigitsAux m ((m + 1) / 10) ++ [digitChar ((m + 1) % 10)] from by
          simp [natDigitsAux, h0]]
      rw [natDigitsAux_fuel m ((m + 1) / 10) ((m + 1) / 10) hd (le_refl _)]
      rw [List.length_append, List.length_cons, List.length_nil]
      have hlen : (natDigitsAux ((m + 1) / 10) ((m + 1) / 10)).length + (0 + 1) - (k + 1)
          = (natDigitsAux ((m + 1) / 10) ((m + 1) / 10)).length - k := by omega
      rw [hlen, List.take_append_of_le_length (by omega)]
      rw [ih ((m + 1) / 10)]
      rw [Nat.div_div_eq_div_mul]
      norm_num [pow_succ, mul_comm]

/-- Scanning stops at a non-digit head (or the end of the string). -/
theorem scanDigits_stop {rest : List Char} {acc : Nat}
    (h : ∀ c, rest.head? = some c → c.isDigit = false) : scanDigits rest acc = acc := by
  cases rest with
  | nil => rfl
  | cons c cs => simp [scanDigits, h c rfl]

theorem dot_not_digit : ('.').isDigit = false := by decide

/-- Every rendered character is a digit character. -/
theorem natDigitsAux_mem : ∀ f n c, c ∈ natDigitsAux f n → ∃ d, d < 10 ∧ c = digitChar d := by
  intro f
  induction f with
  | zero => intro n c hc; simp [natDigitsAux] at hc
  | succ f ih =>
    intro n c hc
    by_cases h0 : n = 0
    · subst h0; simp [natDigitsAux] at hc
    · simp only [natDigitsAux, if_neg h0, List.mem_append, List.mem_singleton] at hc
      rcases hc with hc | hc
      · exact ih _ _ hc
      · exact ⟨n % 10, Nat.mod_lt _ (by omega), hc⟩

theorem natStr_mem {n : Nat} {c : Char} (hc : c ∈ natStr n) : ∃ d, d < 10 ∧ c = digitChar d := by
  unfold natStr at hc
  by_cases h0 : n = 0
  · simp [h0] at hc; exact ⟨0, by omega, hc⟩
  · simp only [if_neg h0] at hc
    exact natDigitsAux_mem n n c hc

/-- Scanning a digit-headed string never takes the minus branch. -/
theorem bigIntScan_of_digit_head {c : Char} {rest : List Char}
    (h : ∃ d, d < 10 ∧ c = digitChar d) :
    bigIntScan (c :: rest) = (scanDigits (c :: rest) 0 : Int) := by
  obtain ⟨d, hd, rfl⟩ := h
  simp [bigIntScan, digitChar_ne_minus hd]

/-- Scanning the full rendering of `n` (followed by nothing or by a
fractional part) yields `n`. -/
theorem scanDigits_natStr (n : Nat) (rest : List Char)
    (h : ∀ c, rest.head? = some c → c.isDigit = false) :
    scanDigits (natStr n ++ rest) 0 = n := by
  unfold natStr
  by_cases h0 : n = 0
  · simp only [if_pos h0, List.singleton_append]
    rw [show scanDigits (digitChar 0 :: rest) 0 = scanDigits rest (0 * 10 + ((digitChar 0).toNat - 48)) from by
      simp [scanDigits, digitChar_isDigit (by omega : (0:Nat) < 10)]]
    rw [scanDigits_stop h]
    simp [digitChar_toNat (by omega : (0:Nat) < 10), h0]
  · rw [if_neg h0, scanDigits_digits n n 0 rest (le_refl n), scanDigits_stop h]
    simp

/-- A scan of a string that does not start with a minus sign. -/
theorem bigIntScan_no_minus (cs : List Char) (h : ∀ c, cs.head? = some c → c ≠ '-') :
    bigIntScan cs = (scanDigits cs 0 : Int) := by
  cases cs with
  | nil => rfl
  | cons c cs2 => simp [bigIntScan, h c rfl]

/-- The integer part of the shopspring rendering scans to `n / 10 ^ k`. -/
theorem scanDigits_ip (n k : Nat) (rest : List Char)
    (hrest : ∀ c, rest.head? = some c → c.isDigit = false) :
    scanDigits ((if (natStr n).length > k then (natStr n).take ((natStr n).length - k)
                 else [digitChar 0]) ++ rest) 0 = n / 10 ^ k := by
  by_cases hlen : (natStr n).length > k
  · rw [if_pos hlen]
    by_cases h0 : n = 0
    · subst h0
      have hk : k = 0 := by simpa [natStr] using hlen
      subst hk
      simpa using scanDigits_natStr 0 rest hrest
    · have hs : natStr n = natDigitsAux n n := if_neg h0
      rw [hs, natDigitsAux_take k n, scanDigits_digits _ _ 0 rest (le_refl _),
        scanDigits_stop hrest]
      simp
  · rw [if_neg hlen]
    have hn : n < 10 ^ k := by
      by_cases h0 : n = 0
      · subst h0; positivity
      · have h1 : n < 10 ^ (natDigitsAux n n).length := natDigitsAux_lt n n (le_refl _)
        have h2 : natStr n = natDigitsAux n n := if_neg h0
        rw [h2] at hlen
        calc n < 10 ^ (natDigitsAux n n).length := h1
          _ ≤ 10 ^ k := Nat.pow_le_pow_right (by omega) (by omega)
    rw [Nat.div_eq_of_lt hn]
    simpa using scanDigits_natStr 0 rest hrest

/-- Characters of the integer part are digit characters. -/
theorem ip_mem {n k : Nat} {c : Char}
    (hc : c ∈ (if (natStr n).length > k then (natStr n).take ((natStr n).length - k)
               else [digitChar 0])) : ∃ d, d < 10 ∧ c = digitChar d := by
  by_cases hlen : (natStr n).length > k
  · rw [if_pos hlen] at hc
    exact natStr_mem (List.mem_of_mem_take hc)
  · rw [if_neg hlen] at hc
    simp at hc
    exact ⟨0, by omega, hc⟩

/-- The integer part is never empty. -/
theorem ip_ne_nil (n k : Nat) :
    (if (natStr n).length > k then (natStr n).take ((natStr n).length - k)
     else [digitChar 0]) ≠ [] := by
  by_cases hlen : (natStr n).length > k
  · rw [if_pos hlen]
    intro h
    have := congrArg List.length h
    simp at this
    omega
  · rw [if_neg hlen]
    simp

/-- The head of the fractional tail (if any) is the decimal point. -/
theorem fracTail_stop (fp : List Char) :
    ∀ c, (if fp.length > 0 then '.' :: fp else []).head? = some c → c.isDigit = false := by
  intro c hc
  by_cases hl : fp.length > 0
  · rw [if_pos hl] at hc
    simp at hc
    subst hc
    decide
  · rw [if_neg hl] at hc
    simp at hc

/-- The rendered number (integer part plus optional fractional tail) scans
to `n / 10 ^ k`. -/
theorem scanDigits_number (n k : Nat) (fp : List Char) :
    scanDigits ((if (natStr n).length > k then (natStr n).take ((natStr n).length - k)
                 else [digitChar 0]) ++ (if fp.length > 0 then '.' :: fp else [])) 0
      = n / 10 ^ k :=
  scanDigits_ip n k _ (fracTail_stop fp)

/-- Same, through `bigIntScan` (the head is a digit, never a sign). -/
theorem bigIntScan_number (n k : Nat) (fp : List Char) :
    bigIntScan ((if (natStr n).length > k then (natStr n).take ((natStr n).length - k)
                 else [digitChar 0]) ++ (if fp.length > 0 then '.' :: fp else []))
      = ((n / 10 ^ k : Nat) : Int) := by
  rw [bigIntScan_no_minus, scanDigits_number]
  intro c hc
  rcases hip : (if (natStr n).length > k then (natStr n).take ((natStr n).length - k)
      else [digitChar 0]) with _ | ⟨a, l⟩
  · exact absurd hip (ip_ne_nil n k)
  · rw [hip, List.cons_append] at hc
    simp at hc
    subst hc
    obtain ⟨d, hd, rfl⟩ := ip_mem (hip ▸ List.mem_cons_self a l)
    exact digitChar_ne_minus hd

/-- Main bridge: `ToWei`'s render-then-scan computes the truncation towards
zero of the decimal's value. -/
theorem bigIntScan_str (v e : Int) : bigIntScan (Dec.str ⟨v, e⟩) = decTrunc v e := by
  by_cases he : 0 ≤ e
  · unfold Dec.str decTrunc
    simp only [if_pos he]
    set w : Int := v * 10 ^ e.toNat with hw
    by_cases hneg : w < 0
    · simp only [if_pos hneg, List.singleton_append]
      rw [show bigIntScan ('-' :: natStr w.natAbs)
            = -(scanDigits (natStr w.natAbs) 0 : Int) from by simp [bigIntScan]]
      have hns := scanDigits_natStr w.natAbs [] (by intro c hc; simp at hc)
      rw [List.append_nil] at hns
      rw [hns]
      omega
    · simp only [if_neg hneg, List.nil_append]
      rw [bigIntScan_no_minus _ ?hmin]
      case hmin =>
        intro c hc
        have hcm : c ∈ natStr w.natAbs := by
          cases hl : natStr w.natAbs with
          | nil => simp [hl] at hc
          | cons a l => rw [hl] at hc; simp at hc; simp [hl, hc]
        obtain ⟨d, hd, rfl⟩ := natStr_mem hcm
        exact digitChar_ne_minus hd
      have hns := scanDigits_natStr w.natAbs [] (by intro c hc; simp at hc)
      rw [List.append_nil] at hns
      rw [hns]
      omega
  · unfold Dec.str decTrunc
    simp only [if_neg he]
    by_cases hneg : v < 0
    · simp only [if_pos hneg, List.singleton_append]
      rw [show ∀ l, bigIntScan ('-' :: l) = -(scanDigits l 0 : Int) from fun l => by
        simp [bigIntScan]]
      rw [scanDigits_number]
      rw [Int.sign_eq_neg_one_of_neg hneg]
      ring
    · simp only [if_neg hneg, List.nil_append]
      rw [bigIntScan_number]
      by_cases hv0 : v = 0
      · subst hv0; simp
      · rw [Int.sign_eq_one_of_pos (by omega)]
        ring

/-- The binary `Pow` recursion computes the exact power. -/
theorem decPowAux_eq : ∀ f (d : Dec) n, n ≤ f →
    decPowAux f d n = ⟨d.value ^ n, n * d.exp⟩ := by
  intro f
  induction f with
  | zero =>
    intro d n hf
    interval_cases n
    rw [show decPowAux 0 d 0 = (⟨1, 0⟩ : Dec) from rfl]
    simp
  | succ f ih =>
    intro d n hf
    by_cases h0 : n = 0
    · subst h0
      rw [show decPowAux (f + 1) d 0 = (⟨1, 0⟩ : Dec) from rfl]
      simp
    · have hd : n / 2 < n := Nat.div_lt_self (by omega) (by omega)
      simp only [decPowAux, if_neg h0]
      rw [ih d (n / 2) (by omega)]
      by_cases h2 : n % 2 = 0
      · have hn2 : n / 2 + n / 2 = n := by omega
        simp only [if_pos h2, Dec.mul]
        rw [← pow_add, hn2]
        congr 1
        conv_rhs => rw [← hn2]
        push_cast
        ring
      · have hn2 : n / 2 + n / 2 + 1 = n := by omega
        simp only [if_neg h2, Dec.mul]
        rw [← pow_add, ← pow_succ, hn2]
        congr 1
        conv_rhs => rw [← hn2]
        push_cast
        ring

theorem decPowNat_ten (s : Nat) : decPowNat ⟨10, 0⟩ s = ⟨10 ^ s, 0⟩ := by
  rw [decPowNat, decPowAux_eq s ⟨10, 0⟩ s (le_refl s)]
  simp

/-- `ToWei` computes the truncation towards zero of `amount · 10 ^ decimals`. -/
theorem toWei_decTrunc (a : Dec) (s : Nat) :
    ToWei a s = decTrunc (a.value * 10 ^ s) a.exp := by
  show bigIntScan (Dec.str (a.mul (decPowNat ⟨10, 0⟩ s))) = decTrunc (a.value * 10 ^ s) a.exp
  rw [decPowNat_ten]
  have hm : a.mul ⟨10 ^ s, 0⟩ = ⟨a.value * 10 ^ s, a.exp⟩ := by simp [Dec.mul]
  rw [hm, bigIntScan_str]

/-- Multiplying the denoted rational by `10 ^ s` scales the coefficient. -/
theorem toRat_scale (v e : Int) (s : Nat) :
    (Dec.toRat ⟨v, e⟩) * 10 ^ s = Dec.toRat ⟨v * 10 ^ s, e⟩ := by
  unfold Dec.toRat
  by_cases he : 0 ≤ e
  · simp only [if_pos he]
    push_cast
    ring
  · simp only [if_neg he]
    push_cast
    ring

/-- Truncation towards zero of the denoted rational. -/
theorem ratTrunc_toRat (v e : Int) : ratTrunc (Dec.toRat ⟨v, e⟩) = decTrunc v e := by
  unfold Dec.toRat decTrunc ratTrunc
  by_cases he : 0 ≤ e
  · simp only [if_pos he]
    set w : Int := v * 10 ^ e.toNat with hw
    by_cases hnn : 0 ≤ (w : ℚ)
    · rw [if_pos hnn, Int.floor_intCast]
    · rw [if_neg hnn]
      rw [show -((w : Int) : ℚ) = (((-w : Int)) : ℚ) from by push_cast; ring, Int.floor_intCast]
      ring
  · simp only [if_neg he]
    set m : Nat := 10 ^ (-e).toNat with hm
    have hm0 : 0 < m := by positivity
    by_cases hv0 : v = 0
    · subst hv0; simp [ratTrunc]
    · by_cases hneg : v < 0
      · have hx : (v : ℚ) / (m : ℕ) < 0 := by
          apply div_neg_of_neg_of_pos
          · exact_mod_cast hneg
          · exact_mod_cast hm0
        rw [if_neg (by linarith)]
        rw [show -((v : ℚ) / (m : ℕ)) = ((-v : Int) : ℚ) / ((m : ℕ) : ℚ) from by
          push_cast; ring]
        rw [Rat.floor_intCast_div_natCast]
        rw [Int.sign_eq_neg_one_of_neg hneg, neg_one_mul, Int.ofNat_ediv]
        have habs : (-v) = (v.natAbs : Int) := by omega
        conv_lhs => rw [habs]
      · have hpos : 0 < v := by omega
        have hx : 0 ≤ (v : ℚ) / (m : ℕ) := by positivity
        rw [if_pos hx, Rat.floor_intCast_div_natCast]
        rw [Int.sign_eq_one_of_pos hpos, one_mul, Int.ofNat_ediv]
        have habs : v = (v.natAbs : Int) := by omega
        conv_lhs => rw [habs]


/-! ## Lemmas: the wallet monad -/

theorem ethm_bind_def {α β : Type} (m : EthM α) (f : α → EthM β) :
    m >>= f = EthM.bind m f := rfl

theorem ethm_pure_def {α : Type} (a : α) : (pure a : EthM α) = EthM.pure a := rfl

/-! ## Claim theorems -/

set_option maxRecDepth 100000

/-- C1 (evaluation at the failing input): the spec requires
`base-units-from-decimal(decimal-from-base-units(v, s), s) = v` for every
non-negative `v` and scale `s`, and `convert.go` documents `ToDecimal` as
retaining full precision; but at `v = 1`, `s = 18` the shopspring `Div`
inside `ToDecimal` rounds at its default `DivisionPrecision = 16`, so
`ToDecimal 1 18` is the decimal zero and the round trip returns `0`, not
`1`. -/
theorem c1_roundTrip_failure_eval :
    ToDecimal 1 18 = ⟨0, -16⟩ ∧ ToWei (ToDecimal 1 18) 18 = 0 := by decide

/-- C2: against a stub whose nonce query answers 5, whose suggested-price
query answers `P` and whose gas-estimate query answers `G` for any input,
`Wallet.NewTx` with nonce 0, gasLimit 0 and gasPrice nil returns exactly
the transaction `{nonce := 5, gasPrice := P, gasLimit := G}` (recipient,
value, data passed through), and the queries reach the node in the fixed
order nonce, then gas price, then gas limit. -/
theorem c2_newTx_stub_resolution (P : Int) (G : Nat)
    (cid : Except Err Int) (sendR : SignedTx → Except Err Unit)
    (w : Wallet) (toA : Address) (value : Option Int) (data : Bytes) (st : PState) :
    Wallet.NewTx w ⟨fun _ => .ok 5, .ok P, fun _ => .ok G, cid, sendR⟩ toA 0 0 none value data st
      = (.ok ⟨toA, 5, G, some P, value, data⟩,
         { st with trace := st.trace ++
             [.pendingNonceAt w.address, .suggestGasPrice,
              .estimateGas ⟨w.address, toA, 0, some P, value, data⟩] }) := by
  simp [Wallet.NewTx, Wallet.GetNonce, Provider.GetSuggestGasPrice, Provider.EstimateGas,
        EthM.query, NewTxAlias, NewTx, gasPriceUnset, ethm_bind_def, EthM.bind,
        ethm_pure_def, EthM.pure]

/-- C3 (counterexample): the claim says the already-resolved nonce is
included as part of the simulated call sent to the Chain Query Service.
Two `Wallet.NewTx` runs that differ only in the caller-supplied nonce
(7 versus 9, both non-zero so they are the resolved nonces, gasLimit 0 so
estimation runs) leave bit-for-bit identical provider states — in
particular the identical single `estimateGas` query — even though the
resolved nonces and the resulting transactions differ.  The service
cannot recover the nonce from the simulated call, so the nonce is not
part of it (`ethereum.CallMsg` has no nonce field). -/
theorem c3_nonce_not_in_simulated_call :
    ((Wallet.NewTx ⟨⟨0⟩⟩ ⟨fun _ => .ok 5, .ok 11, fun _ => .ok 21000, .ok 1, fun _ => .ok ()⟩
        ⟨1⟩ 7 0 (some 3) none [] ⟨none, []⟩).2
      = (Wallet.NewTx ⟨⟨0⟩⟩ ⟨fun _ => .ok 5, .ok 11, fun _ => .ok 21000, .ok 1, fun _ => .ok ()⟩
        ⟨1⟩ 9 0 (some 3) none [] ⟨none, []⟩).2)
    ∧ (Wallet.NewTx ⟨⟨0⟩⟩ ⟨fun _ => .ok 5, .ok 11, fun _ => .ok 21000, .ok 1, fun _ => .ok ()⟩
        ⟨1⟩ 7 0 (some 3) none [] ⟨none, []⟩).1 = .ok ⟨⟨1⟩, 7, 21000, some 3, none, []⟩
    ∧ (Wallet.NewTx ⟨⟨0⟩⟩ ⟨fun _ => .ok 5, .ok 11, fun _ => .ok 21000, .ok 1, fun _ => .ok ()⟩
        ⟨1⟩ 9 0 (some 3) none [] ⟨none, []⟩).1 = .ok ⟨⟨1⟩, 9, 21000, some 3, none, []⟩ :=
  ⟨rfl, rfl, rfl⟩

/-- C3 (amended): whenever the gas limit argument of `Wallet.NewTx` is 0
and the build succeeds, gas estimation is invoked with the already-resolved
nonce and gas price passed as arguments to `Provider.EstimateGas`, and the
simulated call sent to the Chain Query Service carries the already-resolved
gas price (it equals the built transaction's gas price) together with
from, to, value and data — but not the nonce, which `ethereum.CallMsg`
cannot represent and `Provider.EstimateGas` drops. -/
theorem c3_estimate_uses_resolved_price (w : Wallet) (p : NodeStub) (toA : Address)
    (nonce : Nat) (gasPrice value : Option Int) (data : Bytes) (st st2 : PState) (tx : Tx)
    (h : Wallet.NewTx w p toA nonce 0 gasPrice value data st = (.ok tx, st2)) :
    tx.txTo = toA
      ∧ Call.estimateGas ⟨w.address, toA, 0, tx.txGasPrice, tx.txValue, tx.txData⟩
          ∈ st2.trace := by
  unfold Wallet.NewTx at h
  by_cases hn0 : nonce = 0
  · cases hq : p.pendingNonceAt w.address with
    | error e =>
      simp_all [Wallet.GetNonce, Provider.GetSuggestGasPrice, Provider.EstimateGas,
            EthM.query, NewTxAlias, NewTx, ethm_bind_def, EthM.bind, ethm_pure_def, EthM.pure]
    | ok nn =>
      by_cases hgp : gasPriceUnset gasPrice = true
      · cases hp : p.suggestGasPrice with
        | error e =>
          simp_all [Wallet.GetNonce, Provider.GetSuggestGasPrice, Provider.EstimateGas,
              EthM.query, NewTxAlias, NewTx, ethm_bind_def, EthM.bind, ethm_pure_def, EthM.pure]
        | ok gp =>
          cases hg : p.estimateGas ⟨w.address, toA, 0, some gp, value, data⟩ with
          | error e =>
            simp_all [Wallet.GetNonce, Provider.GetSuggestGasPrice, Provider.EstimateGas,
                EthM.query, NewTxAlias, NewTx, ethm_bind_def, EthM.bind, ethm_pure_def, EthM.pure]
          | ok g =>
            simp_all [Wallet.GetNonce, Provider.GetSuggestGasPrice, Provider.EstimateGas,
                EthM.query, NewTxAlias, NewTx, ethm_bind_def, EthM.bind, ethm_pure_def, EthM.pure]
            obtain ⟨h1, h2⟩ := h
            subst h1 h2
            simp
      · cases hg : p.estimateGas ⟨w.address, toA, 0, gasPrice, value, data⟩ with
        | error e =>
          simp_all [Wallet.GetNonce, Provider.GetSuggestGasPrice, Provider.EstimateGas,
              EthM.query, NewTxAlias, NewTx, ethm_bind_def, EthM.bind, ethm_pure_def, EthM.pure]
        | ok g =>
          simp_all [Wallet.GetNonce, Provider.GetSuggestGasPrice, Provider.EstimateGas,
              EthM.query, NewTxAlias, NewTx, ethm_bind_def, EthM.bind, ethm_pure_def, EthM.pure]
          obtain ⟨h1, h2⟩ := h
          subst h1 h2
          simp
  · by_cases hgp : gasPriceUnset gasPrice = true
    · cases hp : p.suggestGasPrice with
      | error e =>
        simp_all [Wallet.GetNonce, Provider.GetSuggestGasPrice, Provider.EstimateGas,
            EthM.query, NewTxAlias, NewTx, ethm_bind_def, EthM.bind, ethm_pure_def, EthM.pure]
      | ok gp =>
        cases hg : p.estimateGas ⟨w.address, toA, 0, some gp, value, data⟩ with
        | error e =>
          simp_all [Wallet.GetNonce, Provider.GetSuggestGasPrice, Provider.EstimateGas,
              EthM.query, NewTxAlias, NewTx, ethm_bind_def, EthM.bind, ethm_pure_def, EthM.pure]
        | ok g =>
          simp_all [Wallet.GetNonce, Provider.GetSuggestGasPrice, Provider.EstimateGas,
              EthM.query, NewTxAlias, NewTx, ethm_bind_def, EthM.bind, ethm_pure_def, EthM.pure]
          obtain ⟨h1, h2⟩ := h
          subst h1 h2
          simp
    · cases hg : p.estimateGas ⟨w.address, toA, 0, gasPrice, value, data⟩ with
      | error e =>
        simp_all [Wallet.GetNonce, Provider.GetSuggestGasPrice, Provider.EstimateGas,
            EthM.query, NewTxAlias, NewTx, ethm_bind_def, EthM.bind, ethm_pure_def, EthM.pure]
      | ok g =>
        simp_all [Wallet.GetNonce, Provider.GetSuggestGasPrice, Provider.EstimateGas,
            EthM.query, NewTxAlias, NewTx, ethm_bind_def, EthM.bind, ethm_pure_def, EthM.pure]
        obtain ⟨h1, h2⟩ := h
        subst h1 h2
        simp

/-- C3 witness: a concrete successful build with gasLimit 0 whose trace
contains the estimate query carrying the resolved gas price. -/
theorem c3_estimate_uses_resolved_price_witness :
    (⟨⟨1⟩, 7, 21000, some 3, none, []⟩ : Tx).txTo = ⟨1⟩
      ∧ Call.estimateGas ⟨⟨0⟩, ⟨1⟩, 0, some 3, none, []⟩
          ∈ (⟨none, [Call.estimateGas ⟨⟨0⟩, ⟨1⟩, 0, some 3, none, []⟩]⟩ : PState).trace :=
  c3_estimate_uses_resolved_price ⟨⟨0⟩⟩
    ⟨fun _ => .ok 5, .ok 11, fun _ => .ok 21000, .ok 1, fun _ => .ok ()⟩
    ⟨1⟩ 7 (some 3) none [] ⟨none, []⟩ _ _ rfl

/-- C4: if any resolution sub-query inside `Wallet.NewTx` fails, the
composite `Wallet.SendTx` returns exactly that error with exactly that
provider state: no partial transaction is produced, nothing is signed
(no chain-id query) or broadcast (no `sendTransaction` query), and
nothing is retried — the queries issued are a sub-sequence of the three
resolution queries, each at most once and in resolution order. -/
theorem c4_sendTx_aborts_on_failure (w : Wallet) (p : NodeStub) (toA : Address) (nonce gasLimit : Nat)
    (gasPrice value : Option Int) (data : Bytes) (st st2 : PState) (e : Err)
    (h : Wallet.NewTx w p toA nonce gasLimit gasPrice value data st = (.error e, st2)) :
    Wallet.SendTx w p toA nonce gasLimit gasPrice value data st = (.error e, st2)
      ∧ ∃ msg ext, st2.trace = st.trace ++ ext
          ∧ List.Sublist ext
              [Call.pendingNonceAt w.address, Call.suggestGasPrice, Call.estimateGas msg] := by
  refine ⟨by simp [Wallet.SendTx, ethm_bind_def, EthM.bind, h], ?_⟩
  unfold Wallet.NewTx at h
  by_cases hn0 : nonce = 0
  · cases hq : p.pendingNonceAt w.address with
    | error e1 =>
      simp_all [Wallet.GetNonce, Provider.GetSuggestGasPrice, Provider.EstimateGas,
          EthM.query, NewTxAlias, NewTx, ethm_bind_def, EthM.bind, ethm_pure_def, EthM.pure]
      obtain ⟨-, h2⟩ := h
      subst h2
      exact ⟨(⟨w.address, toA, 0, none, none, []⟩ : CallMsg), [Call.pendingNonceAt w.address], rfl, List.Sublist.cons₂ _ (List.nil_sublist _)⟩
    | ok nn =>
      by_cases hgp : gasPriceUnset gasPrice = true
      · cases hp : p.suggestGasPrice with
        | error e1 =>
          simp_all [Wallet.GetNonce, Provider.GetSuggestGasPrice, Provider.EstimateGas,
              EthM.query, NewTxAlias, NewTx, ethm_bind_def, EthM.bind, ethm_pure_def, EthM.pure]
          obtain ⟨-, h2⟩ := h
          subst h2
          exact ⟨(⟨w.address, toA, 0, none, none, []⟩ : CallMsg), [Call.pendingNonceAt w.address, Call.suggestGasPrice], rfl, List.Sublist.cons₂ _ (List.Sublist.cons₂ _ (List.nil_sublist _))⟩
        | ok gp =>
          by_cases hgl : gasLimit = 0
          · cases hg : p.estimateGas ⟨w.address, toA, 0, some gp, value, data⟩ with
            | error e1 =>
              simp_all [Wallet.GetNonce, Provider.GetSuggestGasPrice, Provider.EstimateGas,
                  EthM.query, NewTxAlias, NewTx, ethm_bind_def, EthM.bind, ethm_pure_def, EthM.pure]
              obtain ⟨-, h2⟩ := h
              subst h2
              exact ⟨(⟨w.address, toA, 0, some gp, value, data⟩ : CallMsg), [Call.pendingNonceAt w.address, Call.suggestGasPrice, Call.estimateGas (⟨w.address, toA, 0, some gp, value, data⟩ : CallMsg)], rfl, List.Sublist.cons₂ _ (List.Sublist.cons₂ _ (List.Sublist.cons₂ _ (List.nil_sublist _)))⟩
            | ok g =>
              simp_all [Wallet.GetNonce, Provider.GetSuggestGasPrice, Provider.EstimateGas,
                  EthM.query, NewTxAlias, NewTx, ethm_bind_def, EthM.bind, ethm_pure_def, EthM.pure]
          ·simp_all [Wallet.GetNonce, Provider.GetSuggestGasPrice, Provider.EstimateGas,
               EthM.query, NewTxAlias, NewTx, ethm_bind_def, EthM.bind, ethm_pure_def, EthM.pure]
      · by_cases hgl : gasLimit = 0
        · cases hg : p.estimateGas ⟨w.address, toA, 0, gasPrice, value, data⟩ with
          | error e1 =>
            simp_all [Wallet.GetNonce, Provider.GetSuggestGasPrice, Provider.EstimateGas,
                EthM.query, NewTxAlias, NewTx, ethm_bind_def, EthM.bind, ethm_pure_def, EthM.pure]
            obtain ⟨-, h2⟩ := h
            subst h2
            exact ⟨(⟨w.address, toA, 0, gasPrice, value, data⟩ : CallMsg), [Call.pendingNonceAt w.address, Call.estimateGas (⟨w.address, toA, 0, gasPrice, value, data⟩ : CallMsg)], rfl, List.Sublist.cons₂ _ (List.Sublist.cons _ (List.Sublist.cons₂ _ (List.nil_sublist _)))⟩
          | ok g =>
            simp_all [Wallet.GetNonce, Provider.GetSuggestGasPrice, Provider.EstimateGas,
                EthM.query, NewTxAlias, NewTx, ethm_bind_def, EthM.bind, ethm_pure_def, EthM.pure]
        ·simp_all [Wallet.GetNonce, Provider.GetSuggestGasPrice, Provider.EstimateGas,
             EthM.query, NewTxAlias, NewTx, ethm_bind_def, EthM.bind, ethm_pure_def, EthM.pure]
  · by_cases hgp : gasPriceUnset gasPrice = true
    · cases hp : p.suggestGasPrice with
      | error e1 =>
        simp_all [Wallet.GetNonce, Provider.GetSuggestGasPrice, Provider.EstimateGas,
            EthM.query, NewTxAlias, NewTx, ethm_bind_def, EthM.bind, ethm_pure_def, EthM.pure]
        obtain ⟨-, h2⟩ := h
        subst h2
        exact ⟨(⟨w.address, toA, 0, none, none, []⟩ : CallMsg), [Call.suggestGasPrice], rfl, List.Sublist.cons _ (List.Sublist.cons₂ _ (List.nil_sublist _))⟩
      | ok gp =>
        by_cases hgl : gasLimit = 0
        · cases hg : p.estimateGas ⟨w.address, toA, 0, some gp, value, data⟩ with
          | error e1 =>
            simp_all [Wallet.GetNonce, Provider.GetSuggestGasPrice, Provider.EstimateGas,
                EthM.query, NewTxAlias, NewTx, ethm_bind_def, EthM.bind, ethm_pure_def, EthM.pure]
            obtain ⟨-, h2⟩ := h
            subst h2
            exact ⟨(⟨w.address, toA, 0, some gp, value, data⟩ : CallMsg), [Call.suggestGasPrice, Call.estimateGas (⟨w.address, toA, 0, some gp, value, data⟩ : CallMsg)], rfl, List.Sublist.cons _ (List.Sublist.cons₂ _ (List.Sublist.cons₂ _ (List.nil_sublist _)))⟩
          | ok g =>
            simp_all [Wallet.GetNonce, Provider.GetSuggestGasPrice, Provider.EstimateGas,
                EthM.query, NewTxAlias, NewTx, ethm_bind_def, EthM.bind, ethm_pure_def, EthM.pure]
        ·simp_all [Wallet.GetNonce, Provider.GetSuggestGasPrice, Provider.EstimateGas,
             EthM.query, NewTxAlias, NewTx, ethm_bind_def, EthM.bind, ethm_pure_def, EthM.pure]
    · by_cases hgl : gasLimit = 0
      · cases hg : p.estimateGas ⟨w.address, toA, 0, gasPrice, value, data⟩ with
        | error e1 =>
          simp_all [Wallet.GetNonce, Provider.GetSuggestGasPrice, Provider.EstimateGas,
              EthM.query, NewTxAlias, NewTx, ethm_bind_def, EthM.bind, ethm_pure_def, EthM.pure]
          obtain ⟨-, h2⟩ := h
          subst h2
          exact ⟨(⟨w.address, toA, 0, gasPrice, value, data⟩ : CallMsg), [Call.estimateGas (⟨w.address, toA, 0, gasPrice, value, data⟩ : CallMsg)], rfl, List.Sublist.cons _ (List.Sublist.cons _ (List.Sublist.cons₂ _ (List.nil_sublist _)))⟩
        | ok g =>
          simp_all [Wallet.GetNonce, Provider.GetSuggestGasPrice, Provider.EstimateGas,
              EthM.query, NewTxAlias, NewTx, ethm_bind_def, EthM.bind, ethm_pure_def, EthM.pure]
      ·simp_all [Wallet.GetNonce, Provider.GetSuggestGasPrice, Provider.EstimateGas,
           EthM.query, NewTxAlias, NewTx, ethm_bind_def, EthM.bind, ethm_pure_def, EthM.pure]

/-- C4 witness: a stub whose nonce query fails; the build and the
composite send both stop at that error having issued only the nonce
query. -/
theorem c4_sendTx_aborts_on_failure_witness :
    Wallet.SendTx ⟨⟨0⟩⟩
        ⟨fun _ => .error "boom", .ok 11, fun _ => .ok 21000, .ok 1, fun _ => .ok ()⟩
        ⟨1⟩ 0 0 none none [] ⟨none, []⟩
      = (.error "boom", ⟨none, [Call.pendingNonceAt ⟨0⟩]⟩)
    ∧ ∃ msg ext, (⟨none, [Call.pendingNonceAt ⟨0⟩]⟩ : PState).trace
          = (⟨none, []⟩ : PState).trace ++ ext
        ∧ List.Sublist ext
            [Call.pendingNonceAt (⟨0⟩ : Address), Call.suggestGasPrice, Call.estimateGas msg] :=
  c4_sendTx_aborts_on_failure ⟨⟨0⟩⟩
    ⟨fun _ => .error "boom", .ok 11, fun _ => .ok 21000, .ok 1, fun _ => .ok ()⟩
    ⟨1⟩ 0 0 none none [] ⟨none, []⟩ _ "boom" rfl

/-- C5: the method selector is deterministic — `GetContractMethodId` is a
pure function of the canonical signature string, computed as the
`0x`-prefixed hex of the first 4 bytes of the Keccak-256 hash — and the
selectors of `"transfer(address,uint256)"` and `"balanceOf(address)"` are
the 4-byte values `a9059cbb` and `70a08231`. -/
theorem c5_method_selectors :
    GetContractMethodId "transfer(address,uint256)" = "0xa9059cbb"
    ∧ GetContractMethodId "balanceOf(address)" = "0x70a08231"
    ∧ ∀ s t : String, s = t → GetContractMethodId s = GetContractMethodId t :=
  ⟨by decide, by decide, fun s t h => by rw [h]⟩

/-- C5 witness: the determinism conjunct applied to a concrete signature. -/
theorem c5_method_selectors_witness :
    GetContractMethodId "transfer(address,uint256)"
      = GetContractMethodId "transfer(address,uint256)" :=
  c5_method_selectors.2.2 "transfer(address,uint256)" "transfer(address,uint256)" rfl

/-- C6: `ToDecimal 10^18 18` denotes exactly the decimal `1.0` (the Go call
`ToWei(1.0, 18)` passes the float 1.0, which `decimal.NewFromFloat` turns
exactly into the decimal `⟨1, 0⟩`, and `ToWei(0.5, 18)` likewise into
`⟨5, -1⟩`); `ToWei ⟨1, 0⟩ 18 = 10^18` and `ToWei ⟨5, -1⟩ 18 = 5·10^17`. -/
theorem c6_conversion_examples :
    (ToDecimal 1000000000000000000 18).toRat = 1
    ∧ ToWei ⟨1, 0⟩ 18 = 1000000000000000000
    ∧ ToWei ⟨5, -1⟩ 18 = 500000000000000000 := by
  refine ⟨?_, by decide, by decide⟩
  have h : ToDecimal 1000000000000000000 18 = ⟨10 ^ 16, -16⟩ := by decide
  rw [h]
  have h16 : ((16 : Int)).toNat = 16 := rfl
  norm_num [Dec.toRat, h16]

/-- C7: for every decimal amount (the `interface{}` dispatch of `ToWei`
turned string, float and integer inputs into a `decimal.Decimal` already)
and every non-negative scale, `ToWei` returns the truncation towards zero
of `amount · 10 ^ scale`: the multiplication is exact, and scanning the
decimal's string through `big.Int.SetString` keeps exactly the integer
part as the scanned prefix, also when the product has a nonzero
fractional part. -/
theorem c7_toWei_truncates (amount : Dec) (decimals : Nat) :
    ToWei amount decimals = ratTrunc (amount.toRat * 10 ^ decimals) := by
  rw [toWei_decTrunc]
  rw [show amount.toRat = Dec.toRat ⟨amount.value, amount.exp⟩ from rfl, toRat_scale,
    ratTrunc_toRat]

/-- C8: once `Provider.GetChainID` has returned a chain id — whether the
cache was preset by `NewProviderWithChainId` or filled by the first
successful query — the cache holds that value and any further
`Provider.GetChainID` call returns the same value with the provider state
(including the query trace) unchanged: the node is never asked again and
the cached identity never changes for the lifetime of the connection. -/
theorem c8_chainId_cached (p : NodeStub) (st st2 : PState) (c : Int)
    (h : Provider.GetChainID p st = (.ok c, st2)) :
    st2.chainId = some c ∧ Provider.GetChainID p st2 = (.ok c, st2) := by
  unfold Provider.GetChainID at h ⊢
  cases hc : st.chainId with
  | some cid =>
    simp [hc, ethm_bind_def, EthM.bind, ethm_pure_def, EthM.pure, EthM.read] at h
    obtain ⟨h1, h2⟩ := h
    subst h2
    simp [hc, h1, ethm_bind_def, EthM.bind, ethm_pure_def, EthM.pure, EthM.read]
  | none =>
    cases hq : p.chainID with
    | error e =>
      simp [hc, hq, ethm_bind_def, EthM.bind, ethm_pure_def, EthM.pure, EthM.read,
            EthM.query, EthM.update] at h
    | ok cid =>
      simp [hc, hq, ethm_bind_def, EthM.bind, ethm_pure_def, EthM.pure, EthM.read,
            EthM.query, EthM.update] at h
      obtain ⟨h1, h2⟩ := h
      subst h2
      simp [h1, ethm_bind_def, EthM.bind, ethm_pure_def, EthM.pure, EthM.read]

/-- C8 witness: a fresh provider resolves the chain id once (the single
`chainID` query in the trace) and the cached state is a fixed point. -/
theorem c8_chainId_cached_witness :
    (⟨some 1, [Call.chainID]⟩ : PState).chainId = some 1
    ∧ Provider.GetChainID
        ⟨fun _ => .ok 0, .ok 0, fun _ => .ok 0, .ok 1, fun _ => .ok ()⟩
        ⟨some 1, [Call.chainID]⟩
      = (.ok 1, ⟨some 1, [Call.chainID]⟩) :=
  c8_chainId_cached ⟨fun _ => .ok 0, .ok 0, fun _ => .ok 0, .ok 1, fun _ => .ok ()⟩
    NewProvider ⟨some 1, [Call.chainID]⟩ 1 rfl

/-- C9: when the timeout deadline is strictly shorter than the effective
first-tick interval (the caller's interval after the silent one-second
clamp), every possible outcome of `Kit.WaitForReceiptWithInterval` is the
timeout error: the poller can never reach the confirmed outcome, even
against a node whose receipt query would succeed at every tick, and no
receipt is ever returned. -/
theorem c9_timeout_before_first_tick (q : Nat → Except Err (Option Receipt))
    (timeout interval : Nat) (res : PollResult)
    (h : timeout < (if interval < secondNs then DefaultWaitInterval else interval))
    (hp : Kit.WaitForReceiptWithInterval q timeout interval res) :
    res = .timedOut := by
  unfold Kit.WaitForReceiptWithInterval at hp
  generalize hI : (if interval < secondNs then DefaultWaitInterval else interval) = I at h hp
  cases hp with
  | timeout _ => rfl
  | confirm hk _ => omega
  | tickMiss hk _ _ => omega

/-- C9 witness: a 1ns deadline with a sub-second (clamped) interval and a
node that would answer with a receipt at every tick still times out. -/
theorem c9_timeout_before_first_tick_witness :
    Kit.WaitForReceiptWithInterval (fun _ => .ok (some ⟨true, 21000, 1⟩)) 1 0 .timedOut
    ∧ PollResult.timedOut = PollResult.timedOut :=
  ⟨by unfold Kit.WaitForReceiptWithInterval; exact PollEnds.timeout (by decide),
   c9_timeout_before_first_tick (fun _ => .ok (some ⟨true, 21000, 1⟩)) 1 0 .timedOut
     (by decide) (by unfold Kit.WaitForReceiptWithInterval; exact PollEnds.timeout (by decide))⟩

/-- C10: at the `Wallet.NewTx` interface a zero nonce argument (and a zero
gasLimit argument) is the unset sentinel: passing 0 always issues the
corresponding query and the queried value is what ends up in the
transaction — including when the queried value is itself 0 — so a caller
can never force its own nonce 0 (the first transaction of a fresh
account) or gas limit 0 through this entry point. -/
theorem c10_zero_sentinel (w : Wallet) (p : NodeStub) (toA : Address)
    (gasPrice value : Option Int) (data : Bytes) (st st2 : PState)
    (n G : Nat) (tx : Tx)
    (hn : p.pendingNonceAt w.address = .ok n)
    (hG : ∀ msg, p.estimateGas msg = .ok G)
    (h : Wallet.NewTx w p toA 0 0 gasPrice value data st = (.ok tx, st2)) :
    tx.txNonce = n ∧ tx.txGas = G
      ∧ Call.pendingNonceAt w.address ∈ st2.trace
      ∧ ∃ msg, Call.estimateGas msg ∈ st2.trace := by
  unfold Wallet.NewTx at h
  by_cases hgp : gasPriceUnset gasPrice = true
  · cases hq : p.suggestGasPrice with
    | error e =>
      simp [Wallet.GetNonce, Provider.GetSuggestGasPrice, Provider.EstimateGas,
            EthM.query, NewTxAlias, NewTx, hn, hq, hgp, ethm_bind_def, EthM.bind,
            ethm_pure_def, EthM.pure] at h
    | ok gp =>
      simp [Wallet.GetNonce, Provider.GetSuggestGasPrice, Provider.EstimateGas,
            EthM.query, NewTxAlias, NewTx, hn, hq, hgp, hG, ethm_bind_def, EthM.bind,
            ethm_pure_def, EthM.pure] at h
      obtain ⟨h1, h2⟩ := h
      subst h1 h2
      exact ⟨rfl, rfl, by simp, ⟨⟨w.address, toA, 0, some gp, value, data⟩, by simp⟩⟩
  · simp [Wallet.GetNonce, Provider.GetSuggestGasPrice, Provider.EstimateGas,
          EthM.query, NewTxAlias, NewTx, hn, hgp, hG, ethm_bind_def, EthM.bind,
          ethm_pure_def, EthM.pure] at h
    obtain ⟨h1, h2⟩ := h
    subst h1 h2
    exact ⟨rfl, rfl, by simp, ⟨⟨w.address, toA, 0, gasPrice, value, data⟩, by simp⟩⟩

/-- C10 witness: with a stub answering nonce 5 and estimate 21000, the
zero arguments are replaced by the queried values and both queries appear
in the trace. -/
theorem c10_zero_sentinel_witness :
    (⟨⟨1⟩, 5, 21000, some 11, none, []⟩ : Tx).txNonce = 5
    ∧ (⟨⟨1⟩, 5, 21000, some 11, none, []⟩ : Tx).txGas = 21000
    ∧ Call.pendingNonceAt ⟨0⟩
        ∈ (⟨none, [Call.pendingNonceAt ⟨0⟩, Call.suggestGasPrice,
            Call.estimateGas ⟨⟨0⟩, ⟨1⟩, 0, some 11, none, []⟩]⟩ : PState).trace
    ∧ ∃ msg, Call.estimateGas msg
        ∈ (⟨none, [Call.pendingNonceAt ⟨0⟩, Call.suggestGasPrice,
            Call.estimateGas ⟨⟨0⟩, ⟨1⟩, 0, some 11, none, []⟩]⟩ : PState).trace :=
  c10_zero_sentinel ⟨⟨0⟩⟩
    ⟨fun _ => .ok 5, .ok 11, fun _ => .ok 21000, .ok 1, fun _ => .ok ()⟩
    ⟨1⟩ none none [] ⟨none, []⟩ _ 5 21000 _ rfl (fun _ => rfl) rfl
